import Mathlib

/-!
Verification development for the league-standings bump-chart application
(single source file app.py). The embedding models:

  * the curve geometry builder get_patch (matplotlib path construction),
  * the standings scraper scrape_standings (page-by-page matchday loop),
  * table shape helpers (num_teams, num_matchdays, team name extraction),
  * the subtitle text generation,
  * the draw-list reordering for highlighted teams,
  * the render loop over teams (patches, dots, end-of-line labels),
  * the per-(league, season) memoization of the scraper.

Coordinates use rationals in place of Python floats (all arithmetic in the
program is exact halving, so rational arithmetic is faithful). Fallible
indexing (iloc on an empty frame, coords[-1] on an empty list) is modelled
with Option: none marks the Python IndexError.
-/

namespace StandingsApp

/-! ## Curve geometry (get_patch, app.py lines 62-102) -/

/-- Path vertex codes used by the matplotlib Path constructor. -/
inductive PathCode where
  | MOVETO
  | LINETO
  | CURVE3
deriving DecidableEq, Repr

/-- A matplotlib Path: a vertex list with one code per vertex. -/
structure MPath where
  vertices : List (ℚ × ℚ)
  codes : List PathCode
deriving DecidableEq, Repr

/-- A matplotlib PathPatch as constructed by get_patch: a path plus the
edge color, face color and z-order keyword arguments. -/
structure PathPatch where
  path : MPath
  ec : String
  fc : String
  zorder : ℕ
deriving DecidableEq, Repr

/-- Embedding of get_patch (app.py lines 62-102): three branches on the
comparison of y2 with y1, each building a PathPatch. The two strict
branches are transcribed separately, exactly as in the source. -/
def get_patch (p1 p2 : ℚ × ℚ) (color : String) : PathPatch :=
  let x1 := p1.1
  let y1 := p1.2
  let x2 := p2.1
  let y2 := p2.2
  if y2 > y1 then
    { path := { vertices := [p1,
                  (x1 + (x2 - x1) / 2, y1),
                  (x1 + (x2 - x1) / 2, y1 + (y2 - y1) / 2),
                  (x1 + (x2 - x1) / 2, y2),
                  p2],
                codes := [.MOVETO, .CURVE3, .CURVE3, .CURVE3, .CURVE3] },
      ec := color, fc := "none", zorder := 5 }
  else if y2 < y1 then
    { path := { vertices := [p1,
                  (x1 + (x2 - x1) / 2, y1),
                  (x1 + (x2 - x1) / 2, y1 + (y2 - y1) / 2),
                  (x1 + (x2 - x1) / 2, y2),
                  p2],
                codes := [.MOVETO, .CURVE3, .CURVE3, .CURVE3, .CURVE3] },
      ec := color, fc := "none", zorder := 5 }
  else
    { path := { vertices := [p1, p2], codes := [.MOVETO, .LINETO] },
      ec := color, fc := "none", zorder := 5 }

/-- Modelled from the claim for the refinement comparison: the simplified
two-case curve builder (equal heights give a straight segment, unequal
heights give the single five-point curve formula). -/
def get_patch_spec (p1 p2 : ℚ × ℚ) (color : String) : PathPatch :=
  if p1.2 = p2.2 then
    { path := { vertices := [p1, p2], codes := [.MOVETO, .LINETO] },
      ec := color, fc := "none", zorder := 5 }
  else
    { path := { vertices := [p1,
                  (p1.1 + (p2.1 - p1.1) / 2, p1.2),
                  (p1.1 + (p2.1 - p1.1) / 2, p1.2 + (p2.2 - p1.2) / 2),
                  (p1.1 + (p2.1 - p1.1) / 2, p2.2),
                  p2],
                codes := [.MOVETO, .CURVE3, .CURVE3, .CURVE3, .CURVE3] },
      ec := color, fc := "none", zorder := 5 }

/-! ## Standings scraper (scrape_standings, app.py lines 38-59)

A fetched matchday page is abstracted to the three pieces of parsed
content the loop body inspects: the text of the first data cell of the
second results table, the full page text, and the team-name link texts
of that table in document order. A source is the family of pages indexed
by matchday number (requests.get composed with get_url). -/

/-- Parsed content of one matchday page. -/
structure Page where
  firstCellText : String
  pageText : String
  teams : List String

/-- Substring test on character lists: pat occurs at some position. -/
def charSub (pat : List Char) : List Char → Bool
  | [] => pat.isEmpty
  | c :: rest => pat.isPrefixOf (c :: rest) || charSub pat rest

/-- Embedding of the Python membership test pat in s on strings. -/
def strContains (s pat : String) : Bool :=
  charSub pat.data s.data

/-- Loop exit test of scrape_standings (app.py line 51): the first data
cell contains the news marker, or the page text contains the
unplayed-match marker. -/
def stop_condition (p : Page) : Bool :=
  strContains p.firstCellText "news" || strContains p.pageText "-:-"

/-- Fuel-indexed unfolding of the while-True loop: starting at a given
week, append the team list for each played matchday and stop at the
first one hitting the exit test. -/
def scrape_aux (src : ℕ → Page) : ℕ → ℕ → List (List String)
  | 0, _ => []
  | fuel + 1, week =>
    if stop_condition (src week) then []
    else (src week).teams :: scrape_aux src fuel (week + 1)

/-- Embedding of scrape_standings: the loop starts at week 1, and the
resulting list of matchday team lists is exactly the column list of the
transposed DataFrame the function returns. -/
def scrape_standings (src : ℕ → Page) (fuel : ℕ) : List (List String) :=
  scrape_aux src fuel 1

/-- Number of columns of the returned table (one per played matchday). -/
def num_matchdays (t : List (List String)) : ℕ :=
  t.length

/-- Number of rows of the returned table: pandas gives the transposed
frame as many rows as the longest appended team list. -/
def num_teams (t : List (List String)) : ℕ :=
  (t.map List.length).foldr max 0

/-- Embedding of the team-name extraction standings.iloc[:, -1].to_list()
(app.py line 163): the last column, or none when the table has zero
columns, modelling the IndexError pandas raises there. -/
def team_names_of (t : List (List String)) : Option (List String) :=
  t.getLast?

/-! ## Subtitle text (app.py lines 267-275) -/

/-- Highlight markup wrapper applied to each subtitle team name. -/
def wrap (t : String) : String :=
  "<" ++ t ++ ">"

/-- Embedding of the subtitle text construction: one team, two teams, or
more than two teams, from the ordered highlighted team list. The guard at
line 267 means the empty list produces no subtitle. -/
def subtitle_text (teams : List String) : Option String :=
  let hl := teams.map wrap
  if teams.length = 1 then
    some (hl.headD "" ++ " highlighted.")
  else if teams.length = 2 then
    some ("Comparison between " ++ String.intercalate " and " hl ++ ".")
  else if 2 < teams.length then
    some ("Comparison between "
      ++ String.intercalate ", " (hl.take (hl.length - 2))
      ++ ", "
      ++ String.intercalate " and " (hl.drop (hl.length - 2))
      ++ ".")
  else
    none

/-! ## Draw-list reordering (app.py lines 189-191)

For each highlighted team in selection order, the list method calls
team_names.pop(team_names.index(team)) followed by append move the first
occurrence of the team to the end of the list. -/

/-- Embedding of the reorder loop over the highlight keys. -/
def reorder_team_names (names highlights : List String) : List String :=
  highlights.foldl (fun acc t => acc.erase t ++ [t]) names

/-! ## Render loop (app.py lines 221-247)

For each team name the loop collects the (matchday index, row index)
coordinates at which the name occurs in the table, sorted by matchday,
draws one patch per consecutive pair, one dot per coordinate, and one
text label at the y of the final coordinate. The stable sort by matchday
of the row-major stack order equals matchday-major traversal, which the
coordinate collector below produces directly. coords[-1] on an empty
coordinate list is the IndexError case, modelled by none. -/

/-- Occurrences of a name in one column, paired with the column index. -/
def rowCoords (name : String) (m : ℕ) : ℕ → List String → List (ℕ × ℕ)
  | _, [] => []
  | r, s :: rest =>
    (if s = name then [(m, r)] else []) ++ rowCoords name m (r + 1) rest

/-- Occurrences of a name in the whole table, matchday-major. -/
def coordsAux (name : String) : ℕ → List (List String) → List (ℕ × ℕ)
  | _, [] => []
  | m, col :: rest => rowCoords name m 0 col ++ coordsAux name (m + 1) rest

/-- Coordinates of one team across the table, in drawing order. -/
def coordsOf (t : List (List String)) (name : String) : List (ℕ × ℕ) :=
  coordsAux name 0 t

/-- Nat coordinate pair as a rational point. -/
def toQ (c : ℕ × ℕ) : ℚ × ℚ :=
  ((c.1 : ℚ), (c.2 : ℚ))

/-- Text color for a team: its highlight color or the dim default. -/
def color_of (hl : List (String × String)) (t : String) : String :=
  (hl.lookup t).getD "dimgrey"

/-- Drawing output for one team: its patches, its dots, and its
end-of-line label. -/
structure TeamRender where
  patches : List PathPatch
  dots : List (ℕ × ℕ)
  labelPos : ℚ × ℚ
  labelText : String
  labelColor : String
  bold : Bool

/-- One iteration of the render loop for one team name; none models the
IndexError of coords[-1] on an empty coordinate list. -/
def render_team (t : List (List String)) (hl : List (String × String))
    (name : String) : Option TeamRender :=
  let color := color_of hl name
  let cs := coordsOf t name
  match cs.getLast? with
  | none => none
  | some lastC =>
    some { patches := (cs.zip cs.tail).map
             (fun pq => get_patch (toQ pq.1) (toQ pq.2) color),
           dots := cs,
           labelPos := ((num_matchdays t : ℚ) - 1 / 4, (lastC.2 : ℚ)),
           labelText := name,
           labelColor := color,
           bold := color != "dimgrey" }

/-- Sequencing of fallible per-item steps, stopping at the first error,
as the Python for-loop does with exceptions. -/
def optionMapList (f : α → Option β) : List α → Option (List β)
  | [] => some []
  | a :: l =>
    match f a with
    | none => none
    | some b =>
      match optionMapList f l with
      | none => none
      | some bs => some (b :: bs)

/-- Embedding of the chart-rendering pass over a standings table: extract
the team names from the last column (line 163), reorder for highlights
(lines 189-191), then run the render loop (lines 221-247). none models a
raised IndexError anywhere in the pass. -/
def render_pass (t : List (List String)) (hl : List (String × String)) :
    Option (List TeamRender) :=
  match team_names_of t with
  | none => none
  | some names =>
    optionMapList (render_team t hl)
      (reorder_team_names names (hl.map Prod.fst))

/-! ## Scrape cache (app.py line 38)

Modelled from the spec: the st.cache decorator on scrape_standings
memoizes the returned table per (league, season) argument pair; a cache
hit returns the stored table and performs no network request. The state
tracks stored entries and a count of pages fetched so far; a cache miss
runs the scraper against the page source family for its key and fetches
one page per loop iteration, including the final stopping one. -/

/-- Memoization state of the cached scraper. -/
structure CacheState where
  entries : List ((String × ℤ) × List (List String))
  fetches : ℕ
deriving DecidableEq

/-- Cached scrape_standings: look the key up; on a miss run the scraper
and store the result, counting the page fetches it performed. -/
def scrape_standings_cached (srcFam : String → ℤ → ℕ → Page) (fuel : ℕ)
    (st : CacheState) (league : String) (season : ℤ) :
    List (List String) × CacheState :=
  match st.entries.lookup (league, season) with
  | some t => (t, st)
  | none =>
    let t := scrape_standings (srcFam league season) fuel
    (t, { entries := ((league, season), t) :: st.entries,
          fetches := st.fetches + (t.length + 1) })

/-! ## Theorems -/

/-- C2: for every pair of points and every color, equal heights give the
straight segment from p1 to p2, and unequal heights give the curved path
through the five points p1, (mid, y1), (mid, ymid), (mid, y2), p2 where
mid is the horizontal midpoint x1 + (x2 - x1) / 2 shared by all three
interior control points. -/
theorem get_patch_cases (p1 p2 : ℚ × ℚ) (color : String) :
    (p2.2 = p1.2 →
      get_patch p1 p2 color =
        { path := { vertices := [p1, p2], codes := [.MOVETO, .LINETO] },
          ec := color, fc := "none", zorder := 5 }) ∧
    (p2.2 ≠ p1.2 →
      get_patch p1 p2 color =
        { path := { vertices := [p1,
                      (p1.1 + (p2.1 - p1.1) / 2, p1.2),
                      (p1.1 + (p2.1 - p1.1) / 2, p1.2 + (p2.2 - p1.2) / 2),
                      (p1.1 + (p2.1 - p1.1) / 2, p2.2),
                      p2],
                    codes := [.MOVETO, .CURVE3, .CURVE3, .CURVE3, .CURVE3] },
          ec := color, fc := "none", zorder := 5 }) := by
  constructor
  · intro h
    simp [get_patch, h]
  · intro h
    rcases lt_or_gt_of_ne h with hlt | hgt
    · simp [get_patch, if_neg (not_lt.mpr hlt.le), if_pos hlt]
    · simp [get_patch, if_pos hgt]

/-- Witness for C2: the example pair p1 = (1, 0), p2 = (2, 3) lands in the
curved branch and all interior control points carry x = 3/2 = 1.5. -/
theorem get_patch_cases_witness :
    get_patch ((1 : ℚ), 0) ((2 : ℚ), 3) "#FF0000" =
      { path := { vertices := [(1, 0), (3 / 2, 0), (3 / 2, 3 / 2),
                    (3 / 2, 3), (2, 3)],
                  codes := [.MOVETO, .CURVE3, .CURVE3, .CURVE3, .CURVE3] },
        ec := "#FF0000", fc := "none", zorder := 5 } := by
  have h := (get_patch_cases ((1 : ℚ), 0) ((2 : ℚ), 3) "#FF0000").2 (by norm_num)
  rw [h]
  norm_num

/-- C9: the curve builder is deterministic; its embedding is a pure
function of the two points and the color, so equal inputs give equal
path data. -/
theorem get_patch_deterministic (p1 p2 q1 q2 : ℚ × ℚ) (c d : String)
    (h1 : p1 = q1) (h2 : p2 = q2) (hc : c = d) :
    get_patch p1 p2 c = get_patch q1 q2 d := by
  subst h1
  subst h2
  subst hc
  rfl

/-- Witness for C9: two invocations at the concrete input pair give the
same patch. -/
theorem get_patch_deterministic_witness :
    get_patch ((1 : ℚ), 0) ((2 : ℚ), 3) "red" =
      get_patch ((1 : ℚ), 0) ((2 : ℚ), 3) "red" :=
  get_patch_deterministic ((1 : ℚ), 0) ((2 : ℚ), 3) ((1 : ℚ), 0) ((2 : ℚ), 3)
    "red" "red" rfl rfl rfl

/-- C10: the two strict branches of the source build identical control
points and codes, so the three-branch builder is extensionally equal to
the simplified two-case definition. -/
theorem get_patch_eq_simplified (p1 p2 : ℚ × ℚ) (color : String) :
    get_patch p1 p2 color = get_patch_spec p1 p2 color := by
  rcases lt_trichotomy p2.2 p1.2 with h | h | h
  · simp [get_patch, get_patch_spec, if_neg (not_lt.mpr h.le), if_pos h,
      if_neg (ne_of_gt h)]
  · simp [get_patch, get_patch_spec, h]
  · simp [get_patch, get_patch_spec, if_pos h, if_neg (ne_of_lt h)]

/-- Counterexample for C3: with three highlighted teams the generated
subtitle joins the final pair with a bare conjunction, not with an
Oxford comma before it. -/
theorem subtitle_text_three_no_oxford :
    subtitle_text ["Arsenal", "Chelsea", "Liverpool"] =
      some "Comparison between <Arsenal>, <Chelsea> and <Liverpool>." ∧
    subtitle_text ["Arsenal", "Chelsea", "Liverpool"] ≠
      some "Comparison between <Arsenal>, <Chelsea>, and <Liverpool>." := by
  constructor
  · rfl
  · decide

/-- C3 amended: one team gives the highlighted sentence, two teams give
the pair comparison, and three or more teams give the comma list of all
but the last two names followed by a comma and the final pair joined
with a bare conjunction (no Oxford comma). -/
theorem subtitle_text_spec :
    (∀ a : String, subtitle_text [a] = some (wrap a ++ " highlighted.")) ∧
    (∀ a b : String, subtitle_text [a, b] =
      some ("Comparison between " ++ wrap a ++ " and " ++ wrap b ++ ".")) ∧
    (∀ (a b c : String) (rest : List String),
      subtitle_text (a :: b :: c :: rest) =
        some ("Comparison between "
          ++ String.intercalate ", "
               (((a :: b :: c :: rest).map wrap).take (rest.length + 1))
          ++ ", "
          ++ String.intercalate " and "
               (((a :: b :: c :: rest).map wrap).drop (rest.length + 1))
          ++ ".")) := by
  refine ⟨?_, ?_, ?_⟩
  · intro a
    simp [subtitle_text]
  · intro a b
    simp [subtitle_text, String.intercalate, String.intercalate.go,
      String.append_assoc]
  · intro a b c rest
    simp [subtitle_text, Nat.add_assoc]

/-- Unfolding of the scrape loop: if no matchday among the next n weeks
triggers the exit test and week + n does, the loop returns exactly the
team lists of those n matchdays, provided the fuel covers them. -/
theorem scrape_aux_spec (src : ℕ → Page) :
    ∀ (n week fuel : ℕ), n < fuel →
    (∀ i, i < n → stop_condition (src (week + i)) = false) →
    stop_condition (src (week + n)) = true →
    scrape_aux src fuel week =
      (List.range n).map (fun i => (src (week + i)).teams) := by
  intro n
  induction n with
  | zero =>
    intro week fuel hf _ hstop
    obtain ⟨f, rfl⟩ : ∃ f, fuel = f + 1 := ⟨fuel - 1, by omega⟩
    have h : stop_condition (src week) = true := by simpa using hstop
    simp [scrape_aux, h]
  | succ n ih =>
    intro week fuel hf hplay hstop
    obtain ⟨f, rfl⟩ : ∃ f, fuel = f + 1 := ⟨fuel - 1, by omega⟩
    have h0 : stop_condition (src week) = false := by
      simpa using hplay 0 (by omega)
    have hrec := ih (week + 1) f (by omega)
      (fun i hi => by
        have := hplay (i + 1) (by omega)
        simpa [Nat.add_assoc, Nat.add_comm, Nat.add_left_comm] using this)
      (by simpa [Nat.add_assoc, Nat.add_comm, Nat.add_left_comm] using hstop)
    simp only [scrape_aux, h0, Bool.false_eq_true, if_false, hrec,
      List.range_succ_eq_map, List.map_cons, List.map_map, Nat.add_zero]
    congr 1
    apply List.map_congr_left
    intro i _
    simp [Function.comp, Nat.add_assoc, Nat.add_comm, Nat.add_left_comm]

/-- C1: if matchdays 1 through n are played (no exit marker) and
matchday n + 1 carries an exit marker (news text in the first data cell
or the unplayed marker in the page), the scraper returns exactly the
team-list columns of the n played matchdays. -/
theorem scrape_standings_stops_at_first_unplayed (src : ℕ → Page)
    (n fuel : ℕ) (hfuel : n < fuel)
    (hplayed : ∀ w, 1 ≤ w → w ≤ n → stop_condition (src w) = false)
    (hstop : stop_condition (src (n + 1)) = true) :
    scrape_standings src fuel =
      (List.range n).map (fun i => (src (i + 1)).teams) ∧
    num_matchdays (scrape_standings src fuel) = n := by
  have h := scrape_aux_spec src n 1 fuel hfuel
    (fun i hi => by
      have := hplayed (1 + i) (by omega) (by omega)
      simpa using this)
    (by simpa [Nat.add_comm] using hstop)
  rw [scrape_standings] at *
  constructor
  · rw [h]
    apply List.map_congr_left
    intro i _
    simp [Nat.add_comm]
  · simp [num_matchdays, h]

/-- Fixture source for the scraper witnesses: matchdays 1 through 3 are
played with two teams each, matchday 4 onward shows the news marker and
the unplayed-match marker. -/
def srcThreePlayed : ℕ → Page := fun w =>
  if w ≤ 3 then
    { firstCellText := "1.", pageText := "Arsenal 2:1 Chelsea",
      teams := ["Arsenal", "Chelsea"] }
  else
    { firstCellText := "news", pageText := "-:-", teams := [] }

/-- Witness for C1: on the fixture with matchdays 1 through 3 played and
matchday 4 unplayed, the scraper returns exactly the three played
columns. -/
theorem scrape_standings_stops_witness :
    scrape_standings srcThreePlayed 10 =
      [["Arsenal", "Chelsea"], ["Arsenal", "Chelsea"], ["Arsenal", "Chelsea"]] ∧
    num_matchdays (scrape_standings srcThreePlayed 10) = 3 := by
  have h := scrape_standings_stops_at_first_unplayed srcThreePlayed 3 10
    (by omega)
    (fun w h1 h3 => by interval_cases w <;> decide)
    (by decide)
  exact ⟨by rw [h.1]; decide, h.2⟩

/-- C6: when matchday 1 already carries an exit marker, the scraper
returns the empty table with zero columns. -/
theorem scrape_standings_empty_when_first_unplayed (src : ℕ → Page)
    (fuel : ℕ) (hstop : stop_condition (src 1) = true) :
    scrape_standings src fuel = [] ∧
    num_matchdays (scrape_standings src fuel) = 0 := by
  cases fuel with
  | zero => simp [scrape_standings, scrape_aux, num_matchdays]
  | succ f => simp [scrape_standings, scrape_aux, hstop, num_matchdays]

/-- Fixture source whose first matchday is already unplayed. -/
def srcUnplayed : ℕ → Page := fun _ =>
  { firstCellText := "news", pageText := "-:-", teams := [] }

/-- Witness for C6: the all-unplayed fixture yields the empty table. -/
theorem scrape_standings_empty_witness :
    scrape_standings srcUnplayed 5 = [] ∧
    num_matchdays (scrape_standings srcUnplayed 5) = 0 :=
  scrape_standings_empty_when_first_unplayed srcUnplayed 5 (by decide)

/-- Maximum fold over a constant list of naturals. -/
theorem foldr_max_of_all_eq (k : ℕ) :
    ∀ l : List ℕ, l ≠ [] → (∀ x ∈ l, x = k) → l.foldr max 0 = k := by
  intro l
  induction l with
  | nil => intro h _; exact absurd rfl h
  | cons a l ih =>
    intro _ hall
    cases l with
    | nil => simp [hall a (by simp)]
    | cons b l =>
      have hrec := ih (by simp) (fun x hx => hall x (List.mem_cons_of_mem a hx))
      simp only [List.foldr] at hrec ⊢
      rw [hrec, hall a (by simp)]
      exact Nat.max_self k

/-- C5: if every played matchday page lists a permutation of one fixed
team set, the scraped table has one row per team, one column per played
matchday, and every column is a permutation of the team set. -/
theorem scrape_standings_invariant (src : ℕ → Page) (teamSet : List String)
    (n fuel : ℕ) (hn : 1 ≤ n) (hfuel : n < fuel)
    (hplayed : ∀ w, 1 ≤ w → w ≤ n → stop_condition (src w) = false)
    (hstop : stop_condition (src (n + 1)) = true)
    (hperm : ∀ w, 1 ≤ w → w ≤ n → ((src w).teams).Perm teamSet) :
    num_teams (scrape_standings src fuel) = teamSet.length ∧
    num_matchdays (scrape_standings src fuel) = n ∧
    ∀ col ∈ scrape_standings src fuel, col.Perm teamSet := by
  have h := scrape_aux_spec src n 1 fuel hfuel
    (fun i hi => by
      have := hplayed (1 + i) (by omega) (by omega)
      simpa using this)
    (by simpa [Nat.add_comm] using hstop)
  rw [scrape_standings] at *
  have hcols : ∀ col ∈ scrape_aux src fuel 1, col.Perm teamSet := by
    intro col hcol
    rw [h] at hcol
    obtain ⟨i, hi, rfl⟩ := List.mem_map.mp hcol
    have hi' := List.mem_range.mp hi
    exact hperm (1 + i) (by omega) (by omega)
  refine ⟨?_, by simp [num_matchdays, h], hcols⟩
  rw [num_teams]
  apply foldr_max_of_all_eq
  · simp only [ne_eq, List.map_eq_nil_iff]
    rw [h]
    simp only [ne_eq, List.map_eq_nil_iff, List.range_eq_nil]
    omega
  · intro x hx
    obtain ⟨col, hcol, rfl⟩ := List.mem_map.mp hx
    exact (hcols col hcol).length_eq

/-- Fixture source for the invariant witness: two played matchdays over
the team set A, B, followed by an unplayed matchday. -/
def srcTwoPlayed : ℕ → Page := fun w =>
  if w = 1 then { firstCellText := "1.", pageText := "2:0", teams := ["A", "B"] }
  else if w = 2 then { firstCellText := "1.", pageText := "1:1", teams := ["B", "A"] }
  else { firstCellText := "news", pageText := "-:-", teams := [] }

/-- Witness for C5: on the two-matchday fixture the table has two rows
and two columns, and the second column, read back from the table, is a
permutation of the team set. -/
theorem scrape_standings_invariant_witness :
    num_teams (scrape_standings srcTwoPlayed 10) = 2 ∧
    num_matchdays (scrape_standings srcTwoPlayed 10) = 2 ∧
    List.Perm ["B", "A"] ["A", "B"] := by
  have h := scrape_standings_invariant srcTwoPlayed ["A", "B"] 2 10
    (by omega) (by omega)
    (fun w h1 h2 => by interval_cases w <;> decide)
    (by decide)
    (fun w h1 h2 => by interval_cases w <;> decide)
  exact ⟨h.1, h.2.1, h.2.2 ["B", "A"] (by decide)⟩

/-- C7: a second cached request for the same (league, season) key
returns a table equal to the first result, leaves the cache state
unchanged, and in particular performs no new page fetch. -/
theorem scrape_cache_idempotent (srcFam : String → ℤ → ℕ → Page) (fuel : ℕ)
    (st : CacheState) (league : String) (season : ℤ) :
    (scrape_standings_cached srcFam fuel
        (scrape_standings_cached srcFam fuel st league season).2
        league season).1 =
      (scrape_standings_cached srcFam fuel st league season).1 ∧
    (scrape_standings_cached srcFam fuel
        (scrape_standings_cached srcFam fuel st league season).2
        league season).2 =
      (scrape_standings_cached srcFam fuel st league season).2 ∧
    (scrape_standings_cached srcFam fuel
        (scrape_standings_cached srcFam fuel st league season).2
        league season).2.fetches =
      (scrape_standings_cached srcFam fuel st league season).2.fetches := by
  cases hc : st.entries.lookup (league, season) with
  | some t => simp [scrape_standings_cached, hc]
  | none => simp [scrape_standings_cached, hc]

/-- Elements of the reordered draw list come from the original list or
from the highlight list. -/
theorem mem_of_mem_reorder :
    ∀ (highlights names : List String) (x : String),
      x ∈ reorder_team_names names highlights → x ∈ names ∨ x ∈ highlights := by
  intro hs
  induction hs with
  | nil =>
    intro names x hx
    exact Or.inl (by simpa [reorder_team_names] using hx)
  | cons h hs ih =>
    intro names x hx
    have hx' : x ∈ reorder_team_names (names.erase h ++ [h]) hs := hx
    rcases ih _ x hx' with hmem | hmem
    · rcases List.mem_append.mp hmem with hm | hm
      · exact Or.inl (List.mem_of_mem_erase hm)
      · simp only [List.mem_singleton] at hm
        subst hm
        exact Or.inr (by simp)
    · exact Or.inr (by simp [hmem])

/-- Normal form of the reorder loop on duplicate-free input: the
non-highlighted names in original order, then the highlighted names in
selection order. -/
theorem reorder_team_names_eq_filter :
    ∀ (highlights names : List String), names.Nodup → highlights.Nodup →
      (∀ t ∈ highlights, t ∈ names) →
      reorder_team_names names highlights =
        names.filter (fun t => !highlights.contains t) ++ highlights := by
  intro hs
  induction hs with
  | nil =>
    intro names _ _ _
    simp [reorder_team_names]
  | cons h hs ih =>
    intro names hnd hhnd hsub
    have hh_not : h ∉ hs := (List.nodup_cons.mp hhnd).1
    have hhs_nd : hs.Nodup := (List.nodup_cons.mp hhnd).2
    have hnd' : (names.erase h ++ [h]).Nodup := by
      refine List.Nodup.append (hnd.erase h) (List.nodup_singleton h) ?_
      intro x hx hx2
      simp only [List.mem_singleton] at hx2
      subst hx2
      exact absurd ((hnd.mem_erase_iff).mp hx).1 (by simp)
    have hsub' : ∀ t ∈ hs, t ∈ names.erase h ++ [h] := by
      intro t ht
      have htn : t ∈ names := hsub t (by simp [ht])
      have hne : t ≠ h := fun hEq => hh_not (hEq ▸ ht)
      exact List.mem_append.mpr (Or.inl ((hnd.mem_erase_iff).mpr ⟨hne, htn⟩))
    have step : reorder_team_names names (h :: hs) =
        reorder_team_names (names.erase h ++ [h]) hs := rfl
    rw [step, ih (names.erase h ++ [h]) hnd' hhs_nd hsub', List.filter_append]
    have hsingle : [h].filter (fun t => !hs.contains t) = [h] := by
      simp [List.filter, hh_not]
    have key : (names.erase h).filter (fun t => !hs.contains t) =
        names.filter (fun t => !((h :: hs).contains t)) := by
      rw [hnd.erase_eq_filter h, List.filter_filter]
      apply List.filter_congr
      intro x _
      simp only [List.contains_cons, Bool.not_or, bne]
      cases hxh : x == h <;> cases hxc : hs.contains x <;>
        simp [hxh, hxc]
    rw [hsingle, key, List.append_assoc, List.singleton_append]

/-- C8: on duplicate-free input with the highlight keys drawn from the
team list, the reordering loop produces exactly the non-highlighted
names in original order followed by the highlighted names in selection
order, and in particular a permutation of the original list with every
highlighted team after every non-highlighted team. -/
theorem reorder_team_names_spec (names highlights : List String)
    (hnd : names.Nodup) (hhnd : highlights.Nodup)
    (hsub : ∀ t ∈ highlights, t ∈ names) :
    reorder_team_names names highlights =
      names.filter (fun t => !highlights.contains t) ++ highlights ∧
    (reorder_team_names names highlights).Perm names := by
  have hfil := reorder_team_names_eq_filter highlights names hnd hhnd hsub
  refine ⟨hfil, ?_⟩
  rw [hfil]
  have hperm1 : highlights.Perm
      (names.filter (fun t => highlights.contains t)) := by
    refine (List.perm_ext_iff_of_nodup hhnd (hnd.filter _)).mpr ?_
    intro a
    simp only [List.mem_filter]
    constructor
    · intro ha
      exact ⟨hsub a ha, by simpa [List.elem_iff] using ha⟩
    · rintro ⟨-, ha⟩
      simpa [List.elem_iff] using ha
  refine (List.Perm.append_left _ hperm1).trans ?_
  have h2 := List.filter_append_perm (fun t => !highlights.contains t) names
  simpa [Bool.not_not] using h2

/-- Witness for C8: the concrete list A, B, C, D with highlights C then
A reorders to B, D, C, A. -/
theorem reorder_team_names_spec_witness :
    reorder_team_names ["A", "B", "C", "D"] ["C", "A"] =
      List.filter (fun t => !(["C", "A"].contains t)) ["A", "B", "C", "D"]
        ++ ["C", "A"] ∧
    (reorder_team_names ["A", "B", "C", "D"] ["C", "A"]).Perm
      ["A", "B", "C", "D"] :=
  reorder_team_names_spec ["A", "B", "C", "D"] ["C", "A"]
    (by decide) (by decide) (by decide)

/-- A column containing a name yields at least one coordinate. -/
theorem rowCoords_ne_nil (name : String) (m : ℕ) :
    ∀ (r : ℕ) (col : List String), name ∈ col →
      rowCoords name m r col ≠ [] := by
  intro r col
  induction col generalizing r with
  | nil => intro h; cases h
  | cons s rest ih =>
    intro hmem
    by_cases hs : s = name
    · simp [rowCoords, hs]
    · have : name ∈ rest := by
        rcases List.mem_cons.mp hmem with hEq | hIn
        · exact absurd hEq.symm hs
        · exact hIn
      simp only [rowCoords, hs, if_false, List.nil_append]
      exact ih (r + 1) this

/-- A table containing a name in some column yields at least one
coordinate for that name. -/
theorem coordsAux_ne_nil (name : String) :
    ∀ (t : List (List String)) (m : ℕ) (col : List String), col ∈ t →
      name ∈ col → coordsAux name m t ≠ [] := by
  intro t
  induction t with
  | nil => intro m col h; cases h
  | cons c rest ih =>
    intro m col hcol hmem
    rcases List.mem_cons.mp hcol with hEq | hIn
    · subst hEq
      simp only [coordsAux, ne_eq, List.append_eq_nil, not_and]
      intro h1
      exact absurd h1 (rowCoords_ne_nil name m 0 col hmem)
    · simp only [coordsAux, ne_eq, List.append_eq_nil, not_and]
      intro _
      exact ih (m + 1) col hIn hmem

/-- Sequencing succeeds when every per-item step succeeds. -/
theorem optionMapList_isSome (f : α → Option β) :
    ∀ l : List α, (∀ a ∈ l, (f a).isSome = true) →
      (optionMapList f l).isSome = true := by
  intro l
  induction l with
  | nil => intro _; rfl
  | cons a l ih =>
    intro h
    obtain ⟨b, hb⟩ := Option.isSome_iff_exists.mp (h a (by simp))
    obtain ⟨bs, hbs⟩ := Option.isSome_iff_exists.mp
      (ih (fun x hx => h x (by simp [hx])))
    simp [optionMapList, hb, hbs]

/-- The render loop body succeeds for any team name present in some
column of the table. -/
theorem render_team_isSome (t : List (List String))
    (hl : List (String × String)) (name : String) (col : List String)
    (hcol : col ∈ t) (hmem : name ∈ col) :
    (render_team t hl name).isSome = true := by
  have hne : coordsOf t name ≠ [] := coordsAux_ne_nil name t 0 col hcol hmem
  have hsome : (coordsOf t name).getLast?.isSome = true := by
    rw [List.getLast?_isSome]
    exact hne
  obtain ⟨c, hc⟩ := Option.isSome_iff_exists.mp hsome
  simp [render_team, hc]

/-- C4 amended: for every table with at least one matchday column and
every highlight set drawn from its team names, the chart-rendering pass
runs to completion. -/
theorem render_pass_completes (t : List (List String)) (names : List String)
    (hl : List (String × String)) (hnames : team_names_of t = some names)
    (hhl : ∀ p ∈ hl, p.1 ∈ names) :
    (render_pass t hl).isSome = true := by
  have hmem_t : names ∈ t :=
    List.mem_of_mem_getLast? (by rw [team_names_of] at hnames; simp [hnames])
  rw [render_pass, hnames]
  apply optionMapList_isSome
  intro a ha
  have hmem : a ∈ names := by
    rcases mem_of_mem_reorder (hl.map Prod.fst) names a ha with h | h
    · exact h
    · obtain ⟨p, hp, rfl⟩ := List.mem_map.mp h
      exact hhl p hp
  exact render_team_isSome t hl a names hmem_t hmem

/-- Witness for C4 amended: a two-matchday, two-team table renders to
completion. -/
theorem render_pass_completes_witness :
    (render_pass [["A", "B"], ["B", "A"]] []).isSome = true :=
  render_pass_completes [["A", "B"], ["B", "A"]] ["B", "A"] []
    (by decide) (by simp)

/-- Counterexample for C4: on the zero-matchday table the pass does not
complete; the team-name extraction from the last column fails, modelling
the IndexError pandas raises for iloc on an empty frame. -/
theorem render_pass_fails_on_empty :
    render_pass ([] : List (List String)) [] = none ∧
    team_names_of ([] : List (List String)) = none := ⟨rfl, rfl⟩

end StandingsApp
